import Mathlib

/-!
Shallow embedding of the homework backend (`src/html/backend/app.py`):
a Flask application with two SQLite tables (`homeworks`, `attachments`),
an upload directory on disk, and five routes
(`GET /api/homeworks`, `POST /api/homeworks`, `PUT /api/homeworks/<id>`,
`DELETE /api/homeworks/<id>`, `GET /uploads/<path:filename>`),
plus the connection-retry helper `get_db_connection`.

Modelling conventions:
- SQLite rows become structures; the two tables are lists of rows, with
  the AUTOINCREMENT counters carried explicitly in `DB`.
- Python sqlite3 runs with the default isolation level: DML statements
  open an implicit transaction, `conn.commit()` publishes it, and
  `conn.close()` without a commit rolls it back.  Handlers therefore
  compute a draft database and install it only on the commit path; on the
  exception path the pre-call database is kept, while file writes (which
  are ordinary disk I/O, outside the transaction) persist either way.
- The disk is a map from full path strings to byte lists; `os.path.join`
  of the upload folder and a name is string concatenation with `/`.
  Claim C10 is about `..` resolution by the operating system, so the
  download route gets a second, segment-level model in which paths are
  resolved before lookup.
- Nondeterministic inputs of a request (wall clock `datetime.now()`,
  `uuid.uuid4().hex`, success of `file.save`) are supplied by an `Env`
  of oracle functions.
-/

namespace HomeworkApp

/-- Bytes of an uploaded file. -/
abbrev Bytes := List Nat

/-- A row of the `homeworks` table:
`id, time, subject, title, content, created_at`. -/
structure Homework where
  id : Nat
  time : String
  subject : String
  title : String
  content : String
  createdAt : Nat
deriving Repr, DecidableEq

/-- A row of the `attachments` table:
`id, homework_id, filename, filepath`. -/
structure Attachment where
  id : Nat
  homework_id : Nat
  filename : String
  filepath : String
deriving Repr, DecidableEq

/-- The SQLite database file: both tables plus the AUTOINCREMENT
counters that produce `lastrowid` for the next inserted row. -/
structure DB where
  homeworks : List Homework
  attachments : List Attachment
  nextHwId : Nat
  nextAttId : Nat
deriving Repr, DecidableEq

/-- The upload directory on disk: an association list from full path
strings to file contents; the first matching entry is the visible one. -/
structure FS where
  files : List (String × Bytes)
deriving Repr, DecidableEq

/-- Read a file (`open`/`send_file`): first entry whose path matches. -/
def FS.read (fs : FS) (p : String) : Option Bytes :=
  match fs.files.find? (fun e => decide (e.1 = p)) with
  | some e => some e.2
  | none => none

/-- `os.path.exists`. -/
def FS.pathExists (fs : FS) (p : String) : Bool :=
  fs.files.any (fun e => decide (e.1 = p))

/-- `file.save(path)`: (over)write the file at `p`. -/
def FS.write (fs : FS) (p : String) (c : Bytes) : FS :=
  ⟨(p, c) :: fs.files⟩

/-- `os.unlink(path)`: remove every entry at `p`. -/
def FS.remove (fs : FS) (p : String) : FS :=
  ⟨fs.files.filter (fun e => decide (e.1 ≠ p))⟩

/-- Whole persistent state of the process: database plus upload dir. -/
structure ServerState where
  db : DB
  fs : FS
deriving Repr, DecidableEq

/-- `request.form`: each required field either absent from the form or
present with a (possibly empty) string value. -/
structure FormData where
  time : Option String
  subject : Option String
  title : Option String
  content : Option String
deriving Repr, DecidableEq

/-- `all(field in data for field in required_fields)` — the validation
in `add_homework` and `update_homework` checks key presence only. -/
def FormData.hasAll (d : FormData) : Bool :=
  d.time.isSome && d.subject.isSome && d.title.isSome && d.content.isSome

/-- One entry of `request.files.getlist('attachments')`. -/
structure UploadFile where
  filename : String
  content : Bytes
deriving Repr, DecidableEq

/-- Per-request oracles: the wall clock string `datetime.now().strftime`
observed when a given file is processed, the `uuid.uuid4().hex` drawn for
it, whether its `file.save` succeeds, and the `CURRENT_TIMESTAMP` SQLite
assigns to `created_at` on insert. -/
structure Env where
  now : UploadFile → String
  suffix : UploadFile → String
  saveOk : UploadFile → Bool
  createdAtNow : Nat

/-- `BASE_DIR/uploads` — `app.config['UPLOAD_FOLDER']`. -/
def UPLOAD_FOLDER : String := "/app/html/backend/uploads"

/-- The unique file name
`f"(datetime.now().strftime('%Y%m%d%H%M%S'))_(uuid.uuid4().hex)_(file.filename)"`. -/
def storedName (ts suffix fname : String) : String :=
  ts ++ "_" ++ suffix ++ "_" ++ fname

/-- The stored name generated for a given upload under the env's oracles. -/
def storedNameFor (env : Env) (f : UploadFile) : String :=
  storedName (env.now f) (env.suffix f) f.filename

/-- `os.path.join(app.config['UPLOAD_FOLDER'], unique_filename)` for the
names the handlers themselves generate. -/
def uploadPath (name : String) : String :=
  UPLOAD_FOLDER ++ "/" ++ name

/-- Element of the `attachments` array in a create/update JSON response. -/
structure SavedFile where
  filename : String
  filepath : String
deriving Repr, DecidableEq

/-- Attachment as serialized inside `GET /api/homeworks`. -/
structure AttJson where
  id : Nat
  filename : String
  filepath : String
deriving Repr, DecidableEq

/-- Homework as serialized inside `GET /api/homeworks`. -/
structure HomeworkJson where
  id : Nat
  time : String
  subject : String
  title : String
  content : String
  createdAt : Nat
  attachments : List AttJson
deriving Repr, DecidableEq

/-- The possible HTTP responses of the five routes. -/
inductive Resp where
  | listing (data : List (String × List HomeworkJson))
  | created (id : Nat) (attachments : List SavedFile)
  | updated (id : Nat) (attachments : List SavedFile)
  | deleted
  | badRequest
  | respNotFound
  | serverError
  | fileBytes (b : Bytes)
deriving Repr, DecidableEq

/-- The `for file in files:` loop shared verbatim by `add_homework` and
`update_homework`: skip empty filenames; otherwise generate the unique
name, `file.save` it (an exception aborts the loop: `none` is returned
together with the disk state reached so far), then stage an
`INSERT INTO attachments` in the open transaction and record the entry
for the response. -/
def processFiles (env : Env) (hwId : Nat) :
    List UploadFile → List Attachment → Nat → List SavedFile → FS →
    Option (List Attachment × Nat × List SavedFile) × FS
  | [], atts, nextAttId, saved, fs => (some (atts, nextAttId, saved), fs)
  | f :: rest, atts, nextAttId, saved, fs =>
    if f.filename = "" then
      processFiles env hwId rest atts nextAttId saved fs
    else
      let name := storedNameFor env f
      if env.saveOk f then
        processFiles env hwId rest
          (atts ++ [⟨nextAttId, hwId, f.filename, name⟩]) (nextAttId + 1)
          (saved ++ [⟨f.filename, name⟩]) (fs.write (uploadPath name) f.content)
      else
        (none, fs)

/-- `POST /api/homeworks` (`add_homework`): presence-check the four form
fields, `INSERT INTO homeworks`, run the attachment loop, and commit; on
an exception inside the `try` block the transaction is discarded by
`conn.close()` (no commit was reached) and a 500 is returned, while the
files written before the failure stay on disk. -/
def add_homework (env : Env) (form : FormData) (files : List UploadFile)
    (st : ServerState) : Resp × ServerState :=
  if form.hasAll then
    let hwId := st.db.nextHwId
    let hw : Homework :=
      ⟨hwId, form.time.getD "", form.subject.getD "", form.title.getD "",
       form.content.getD "", env.createdAtNow⟩
    match processFiles env hwId files st.db.attachments st.db.nextAttId [] st.fs with
    | (some (atts', nextAtt', saved), fs') =>
      (.created hwId saved,
       ⟨⟨st.db.homeworks ++ [hw], atts', hwId + 1, nextAtt'⟩, fs'⟩)
    | (none, fs') => (.serverError, ⟨st.db, fs'⟩)
  else
    (.badRequest, st)

/-- `PUT /api/homeworks/<id>` (`update_homework`): presence-check the
fields, 404 when `SELECT * FROM homeworks WHERE id = ?` finds nothing,
otherwise stage the `UPDATE` of the four mutable columns, run the same
attachment loop, and commit; an exception again discards the transaction
and answers 500. -/
def update_homework (env : Env) (id : Nat) (form : FormData)
    (files : List UploadFile) (st : ServerState) : Resp × ServerState :=
  if form.hasAll then
    match st.db.homeworks.find? (fun h => decide (h.id = id)) with
    | none => (.respNotFound, st)
    | some _ =>
      let hws' := st.db.homeworks.map (fun h =>
        if h.id = id then
          { h with time := form.time.getD "", subject := form.subject.getD "",
                   title := form.title.getD "", content := form.content.getD "" }
        else h)
      match processFiles env id files st.db.attachments st.db.nextAttId [] st.fs with
      | (some (atts', nextAtt', saved), fs') =>
        (.updated id saved, ⟨⟨hws', atts', st.db.nextHwId, nextAtt'⟩, fs'⟩)
      | (none, fs') => (.serverError, ⟨st.db, fs'⟩)
  else
    (.badRequest, st)

/-- Observable steps of `delete_homework`, used to state that the row
deletions and the commit happen before any `os.unlink`. -/
inductive Event where
  | dbDeleteAttachments (hwId : Nat)
  | dbDeleteHomework (hwId : Nat)
  | commitTx
  | unlink (path : String)
deriving Repr, DecidableEq

/-- `DELETE /api/homeworks/<id>` (`delete_homework`): read the `filepath`s
of the attachments of `id`, delete the attachment rows and the homework
row, commit, and only then unlink each listed file that exists on disk
(unlink failures are swallowed).  There is no existence check on `id`:
the route answers 200 either way. -/
def delete_homework (id : Nat) (st : ServerState) :
    Resp × ServerState × List Event :=
  let names := (st.db.attachments.filter (fun a => decide (a.homework_id = id))).map
    (fun a => a.filepath)
  let db' : DB :=
    ⟨st.db.homeworks.filter (fun h => decide (h.id ≠ id)),
     st.db.attachments.filter (fun a => decide (a.homework_id ≠ id)),
     st.db.nextHwId, st.db.nextAttId⟩
  let unlinked := names.foldl (fun (p : FS × List Event) n =>
    let path := uploadPath n
    if p.1.pathExists path then (p.1.remove path, p.2 ++ [.unlink path]) else p)
    (st.fs, [])
  (.deleted, ⟨db', unlinked.1⟩,
   [.dbDeleteAttachments id, .dbDeleteHomework id, .commitTx] ++ unlinked.2)

/-- `SELECT * FROM homeworks ORDER BY created_at DESC`: the rows sorted
most-recent-first. -/
def sortHw (l : List Homework) : List Homework :=
  l.insertionSort (fun a b => b.createdAt ≤ a.createdAt)

/-- Serialization of one homework row with its joined attachments, as
built inside the `for hw in homeworks:` loop of `get_homeworks`. -/
def hwJson (atts : List Attachment) (hw : Homework) : HomeworkJson :=
  ⟨hw.id, hw.time, hw.subject, hw.title, hw.content, hw.createdAt,
   (atts.filter (fun a => decide (a.homework_id = hw.id))).map
     (fun a => ⟨a.id, a.filename, a.filepath⟩)⟩

/-- `data[subject]["homeworks"].append(homework)` on a Python dict that
preserves insertion order: append to the group of an existing key, else
add the key at the end. -/
def insertGrouped (s : String) (h : HomeworkJson) :
    List (String × List HomeworkJson) → List (String × List HomeworkJson)
  | [] => [(s, [h])]
  | (k, v) :: rest =>
    if k = s then (k, v ++ [h]) :: rest else (k, v) :: insertGrouped s h rest

/-- `GET /api/homeworks` (`get_homeworks`): fetch the homeworks sorted by
`created_at DESC` and all attachments, then group into the subject-keyed
dict in iteration order. -/
def get_homeworks (db : DB) : List (String × List HomeworkJson) :=
  (sortHw db.homeworks).foldl
    (fun acc hw => insertGrouped hw.subject (hwJson db.attachments hw) acc) []

/-- What one `sqlite3.connect` attempt does, as seen by the caller:
succeed, raise an `OperationalError` whose text contains "locked", or
raise some other `OperationalError`. -/
inductive ConnOutcome where
  | ok
  | lockedErr
  | otherErr
deriving Repr, DecidableEq

/-- How `get_db_connection` returns to its caller. -/
inductive ConnResult where
  | conn
  | raisedLocked
  | raisedOther
  | fellThrough
deriving Repr, DecidableEq

/-- The `while attempts < max_attempts` loop of `get_db_connection`,
driven by an oracle giving the outcome of each numbered connect attempt.
Returns the result together with the number of connect attempts made and
the list of `time.sleep` durations (in milliseconds) in order.  `fuel`
only bounds the recursion; `connectLoop o 5 0` never exhausts it because
`attempts` reaches at most 4. -/
def connectLoop (oracle : Nat → ConnOutcome) :
    Nat → Nat → ConnResult × Nat × List Nat
  | 0, _ => (.fellThrough, 0, [])
  | fuel + 1, attempts =>
    if attempts < 5 then
      match oracle attempts with
      | .ok => (.conn, 1, [])
      | .lockedErr =>
        if attempts < 5 - 1 then
          let r := connectLoop oracle fuel (attempts + 1)
          (r.1, r.2.1 + 1, 500 :: r.2.2)
        else
          (.raisedLocked, 1, [])
      | .otherErr => (.raisedOther, 1, [])
    else
      (.fellThrough, 0, [])

/-- `get_db_connection`: up to `max_attempts = 5` connect attempts with a
fixed `time.sleep(0.5)` between retried locked failures. -/
def get_db_connection (oracle : Nat → ConnOutcome) : ConnResult × Nat × List Nat :=
  connectLoop oracle 5 0

/-- String-level model of `GET /uploads/<path:filename>`
(`uploaded_file`), adequate while the requested name is compared only
against names the handlers themselves stored: join onto the upload
folder, 404 when `os.path.exists` fails, else send the bytes. -/
def uploaded_file (name : String) (fs : FS) : Resp :=
  match fs.read (uploadPath name) with
  | some b => .fileBytes b
  | none => .respNotFound

/-- Split a path string into `/`-separated segments. -/
def splitChars : List Char → List (List Char)
  | [] => [[]]
  | c :: rest =>
    match splitChars rest with
    | [] => [[]]
    | s :: ss => if c = '/' then [] :: s :: ss else (c :: s) :: ss

/-- Segments of a path string. -/
def splitPath (p : String) : List String :=
  (splitChars p.data).map (fun cs => String.mk cs)

/-- Does the string start with `/` (an absolute path)? -/
def startsWithSlash (p : String) : Bool :=
  match p.data with
  | [] => false
  | c :: _ => decide (c = '/')

/-- `os.path.join(dir, name)`: an absolute `name` replaces `dir` wholesale,
otherwise the two are joined with a separator. -/
def osJoin (dir name : String) : String :=
  if startsWithSlash name then name else dir ++ "/" ++ name

/-- How the operating system resolves a path before touching the disk:
empty and `.` segments vanish and `..` pops the previous segment. -/
def resolveSegs (segs : List String) : List String :=
  segs.foldl (fun acc seg =>
    if seg = "" ∨ seg = "." then acc
    else if seg = ".." then acc.dropLast
    else acc ++ [seg]) []

/-- Canonical (resolved) form of a path string. -/
def resolve (p : String) : List String :=
  resolveSegs (splitPath p)

/-- The disk as the operating system sees it: files keyed by resolved
absolute path segments. -/
structure DiskFS where
  files : List (List String × Bytes)
deriving Repr, DecidableEq

/-- Read a file given resolved segments. -/
def DiskFS.read (fs : DiskFS) (segs : List String) : Option Bytes :=
  match fs.files.find? (fun e => decide (e.1 = segs)) with
  | some e => some e.2
  | none => none

/-- Segment-level model of `GET /uploads/<path:filename>`: the
caller-supplied `name` is joined onto the upload folder exactly as in
`uploaded_file` and the operating system then resolves the joined string,
`..` segments included, before looking the file up — there is no check
that the resolved path stays below the upload folder. -/
def uploaded_file_resolved (uploadDir : String) (name : String)
    (disk : DiskFS) : Resp :=
  match disk.read (resolve (osJoin uploadDir name)) with
  | some b => .fileBytes b
  | none => .respNotFound

/-- Cumulative effect on the upload directory of the `file.save` calls
for a run of uploads (each file written under its generated name). -/
def writeAll (env : Env) (fs : FS) (files : List UploadFile) : FS :=
  files.foldl (fun fs f => fs.write (uploadPath (storedNameFor env f)) f.content) fs

/-- The attachment rows the loop stages for a run of non-skipped uploads,
starting from AUTOINCREMENT value `n`. -/
def attRows (env : Env) (hwId : Nat) : Nat → List UploadFile → List Attachment
  | _, [] => []
  | n, f :: rest => ⟨n, hwId, f.filename, storedNameFor env f⟩ :: attRows env hwId (n + 1) rest

/-- The `saved_files` response entries for a run of non-skipped uploads. -/
def savedRows (env : Env) : List UploadFile → List SavedFile
  | [] => []
  | f :: rest => ⟨f.filename, storedNameFor env f⟩ :: savedRows env rest

/-- The value stored under key `s` in the grouped listing (the first
entry with that key; `[]` when the key is absent). -/
def groupVal (s : String) : List (String × List HomeworkJson) → List HomeworkJson
  | [] => []
  | (k, v) :: rest => if k = s then v else groupVal s rest

/-- Fixture: oracles under which every `file.save` succeeds. -/
def envOkFix : Env :=
  ⟨fun _ => "20240101120000", fun _ => "aabb", fun _ => true, 42⟩

/-- Fixture: oracles under which saving `b.txt` raises and every other
save succeeds. -/
def envFailFix : Env :=
  ⟨fun _ => "20240101120000", fun _ => "aabb",
   fun f => decide (f.filename ≠ "b.txt"), 42⟩

/-- Fixture: empty database and empty upload directory. -/
def stEmpty : ServerState := ⟨⟨[], [], 1, 1⟩, ⟨[]⟩⟩

/-- Fixture: a form whose `time` key is present but holds `""`. -/
def formEmptyTime : FormData := ⟨some "", some "Math", some "Ch1", some "p1"⟩

/-- Fixture: a form whose `time` key is absent. -/
def formMissingTime : FormData := ⟨none, some "Math", some "Ch1", some "p1"⟩

/-- Fixture: a fully valid form. -/
def formOkFix : FormData := ⟨some "2024-01-01", some "Math", some "Ch1", some "p1"⟩

/-- Fixture upload whose save succeeds under `envFailFix`. -/
def fileA : UploadFile := ⟨"a.txt", [1, 2]⟩

/-- Fixture upload whose save fails under `envFailFix`. -/
def fileB : UploadFile := ⟨"b.txt", [3]⟩

/-- Fixture homework row. -/
def hwFix : Homework := ⟨1, "t1", "Math", "T", "C", 10⟩

/-- Fixture attachment row of `hwFix`. -/
def attFix : Attachment := ⟨1, 1, "a.txt", "n_a.txt"⟩

/-- Fixture: one homework with one attachment whose file is on disk. -/
def stOneFix : ServerState :=
  ⟨⟨[hwFix], [attFix], 2, 2⟩, ⟨[(uploadPath "n_a.txt", [9])]⟩⟩

/-- Keys of the grouped listing, in insertion order. -/
def keysOf (acc : List (String × List HomeworkJson)) : List String := acc.map Prod.fst

/-- All homework entries of the grouped listing, group by group. -/
def flatVals (acc : List (String × List HomeworkJson)) : List HomeworkJson :=
  (acc.map Prod.snd).flatten

/-- The `ORDER BY created_at DESC` comparison is total. -/
instance : IsTotal Homework (fun a b => b.createdAt ≤ a.createdAt) :=
  ⟨fun a b => Nat.le_total b.createdAt a.createdAt⟩

/-- The `ORDER BY created_at DESC` comparison is transitive. -/
instance : IsTrans Homework (fun a b => b.createdAt ≤ a.createdAt) :=
  ⟨fun _ _ _ hab hbc => Nat.le_trans hbc hab⟩

/-- Fixture: a valid form carrying replacement values for an update. -/
def formUpdFix : FormData := ⟨some "t2", some "Sci", some "T2", some "C2"⟩

/-- Disk fixture: a legitimate upload plus a file `secret.txt` that
lives next to, not inside, the upload folder. -/
def demoDisk : DiskFS :=
  ⟨[(["app", "html", "backend", "uploads", "good.txt"], [1, 2]),
    (["app", "html", "backend", "secret.txt"], [42, 42])]⟩

end HomeworkApp

namespace HomeworkApp

/-! ## Claim C7: distinct random suffixes give distinct stored names -/

/-- C7 — The generated `storedName` is a function of the timestamp (to
the second), the random suffix and the original filename, and whenever
the two random suffixes differ the two stored names differ, even with
identical timestamps and identical original filenames; hence two
concurrent creates with the same original filename get distinct names. -/
theorem claim_C7_storedName_distinct (ts fname s1 s2 : String) (h : s1 ≠ s2) :
    storedName ts s1 fname ≠ storedName ts s2 fname := by
  intro heq
  apply h
  have hd : (storedName ts s1 fname).data = (storedName ts s2 fname).data := by
    rw [heq]
  simp only [storedName, String.data_append, List.append_assoc] at hd
  exact String.ext
    (List.append_cancel_right (List.append_cancel_left (List.append_cancel_left hd)))

/-- C7 witness: distinct concrete suffixes at identical timestamp and
filename yield distinct stored names. -/
theorem claim_C7_storedName_distinct_witness :
    ("aa" : String) ≠ "bb"
    ∧ storedName "20240101120000" "aa" "hw.pdf" ≠ storedName "20240101120000" "bb" "hw.pdf" :=
  ⟨by decide, claim_C7_storedName_distinct "20240101120000" "hw.pdf" "aa" "bb" (by decide)⟩

/-! ## Claim C1: create rejects missing fields (presence check only) -/

/-- C1 counterexample — a create request whose `time` field is present
but equal to `""` is **not** rejected: the code only checks key presence,
so the request succeeds (201) and a homework row is inserted. -/
theorem claim_C1_counterexample :
    (add_homework envOkFix formEmptyTime [] stEmpty).1 = .created 1 []
    ∧ (add_homework envOkFix formEmptyTime [] stEmpty).2.db.homeworks ≠ [] := by
  decide

/-- C1 (amended) — a create request in which any of the four fields
`time`, `subject`, `title`, `content` is missing from the form fails with
the 400 response and leaves the whole state (rows and files) unchanged;
a field that is present but empty passes the validation. -/
theorem claim_C1_missing_field (env : Env) (form : FormData)
    (files : List UploadFile) (st : ServerState)
    (h : form.time = none ∨ form.subject = none ∨ form.title = none ∨
      form.content = none) :
    add_homework env form files st = (.badRequest, st) := by
  have hh : form.hasAll = false := by
    rcases h with h | h | h | h <;> simp [FormData.hasAll, h]
  simp [add_homework, hh]

/-- C1 witness: a concrete form missing `time` is rejected with no
state change. -/
theorem claim_C1_missing_field_witness :
    (formMissingTime.time = none ∨ formMissingTime.subject = none ∨
      formMissingTime.title = none ∨ formMissingTime.content = none)
    ∧ add_homework envOkFix formMissingTime [fileA] stEmpty = (.badRequest, stEmpty) :=
  ⟨by decide, claim_C1_missing_field envOkFix formMissingTime [fileA] stEmpty (by decide)⟩

/-! ## Claim C3: update/delete of an absent id -/

/-- C3 counterexample — deleting an id that is not in the `homeworks`
table does **not** answer 404: `delete_homework` has no existence check
and answers 200 (`deleted`), leaving the state unchanged. -/
theorem claim_C3_counterexample :
    (delete_homework 99 stOneFix).1 = .deleted
    ∧ (delete_homework 99 stOneFix).1 ≠ .respNotFound
    ∧ (delete_homework 99 stOneFix).2.1 = stOneFix := by
  decide

/-- C3 (amended) — for an id absent from the `homeworks` table (and, as
referential integrity guarantees, referenced by no attachment row):
update fails with the 404 response and leaves the state unchanged, while
delete succeeds with the 200 response and also leaves both tables and
the stored files unchanged (an idempotent no-op, not a 404). -/
theorem claim_C3_absent_id (env : Env) (id : Nat) (form : FormData)
    (files : List UploadFile) (st : ServerState)
    (hform : form.hasAll = true)
    (hhw : ∀ hw ∈ st.db.homeworks, hw.id ≠ id)
    (hatt : ∀ a ∈ st.db.attachments, a.homework_id ≠ id) :
    update_homework env id form files st = (.respNotFound, st)
    ∧ delete_homework id st =
        (.deleted, st, [.dbDeleteAttachments id, .dbDeleteHomework id, .commitTx]) := by
  constructor
  · have hfind : st.db.homeworks.find? (fun h => decide (h.id = id)) = none :=
      List.find?_eq_none.mpr (by intro x hx; simpa using hhw x hx)
    simp [update_homework, hform, hfind]
  · have h1 : st.db.attachments.filter (fun a => decide (a.homework_id = id)) = [] :=
      List.filter_eq_nil_iff.mpr (by intro a ha; simpa using hatt a ha)
    have h2 : st.db.homeworks.filter (fun h => !decide (h.id = id)) = st.db.homeworks :=
      List.filter_eq_self.mpr (by intro a ha; simpa using hhw a ha)
    have h3 : st.db.attachments.filter (fun a => !decide (a.homework_id = id)) = st.db.attachments :=
      List.filter_eq_self.mpr (by intro a ha; simpa using hatt a ha)
    simp [delete_homework, h1, h2, h3]

/-- C3 witness: concrete absent id `99` on a one-homework state. -/
theorem claim_C3_absent_id_witness :
    formOkFix.hasAll = true
    ∧ (∀ hw ∈ stOneFix.db.homeworks, hw.id ≠ 99)
    ∧ (∀ a ∈ stOneFix.db.attachments, a.homework_id ≠ 99)
    ∧ (update_homework envOkFix 99 formOkFix [] stOneFix = (.respNotFound, stOneFix)
        ∧ delete_homework 99 stOneFix =
            (.deleted, stOneFix, [.dbDeleteAttachments 99, .dbDeleteHomework 99, .commitTx])) :=
  ⟨by decide, by decide, by decide,
   claim_C3_absent_id envOkFix 99 formOkFix [] stOneFix (by decide) (by decide) (by decide)⟩

/-! ## Claim C10: path traversal in the download route -/

/-- C10 — the download route joins the caller-supplied name onto the
upload folder with no containment check: the request name
`../secret.txt` resolves to a path that is not below the upload root,
yet the route returns the bytes of that outside file instead of failing. -/
theorem claim_C10_path_traversal :
    uploaded_file_resolved UPLOAD_FOLDER "../secret.txt" demoDisk = .fileBytes [42, 42]
    ∧ demoDisk.read (resolve (osJoin UPLOAD_FOLDER "../secret.txt")) = some [42, 42]
    ∧ (resolve UPLOAD_FOLDER).isPrefixOf
        (resolve (osJoin UPLOAD_FOLDER "../secret.txt")) = false := by
  decide

end HomeworkApp

namespace HomeworkApp

/-! ## Claim C9: connection retry policy -/

/-- C9 — acquiring a connection makes at most 5 attempts: when every
attempt reports a locked condition the fatal error is surfaced only
after the 5th attempt, with a fixed 500 ms sleep between consecutive
attempts; a run of locked failures followed by a non-locked failure (or
a success) at attempt `j` ends immediately at attempt `j + 1` with no
further retry. -/
theorem claim_C9_retry_policy (oracle : Nat → ConnOutcome) :
    ((∀ i, i < 5 → oracle i = .lockedErr) →
        get_db_connection oracle = (.raisedLocked, 5, [500, 500, 500, 500]))
    ∧ (∀ j, j < 5 → oracle j = .otherErr → (∀ i, i < j → oracle i = .lockedErr) →
        get_db_connection oracle = (.raisedOther, j + 1, List.replicate j 500))
    ∧ (∀ j, j < 5 → oracle j = .ok → (∀ i, i < j → oracle i = .lockedErr) →
        get_db_connection oracle = (.conn, j + 1, List.replicate j 500)) := by
  refine ⟨?_, ?_, ?_⟩
  · intro h
    simp [get_db_connection, connectLoop, h 0 (by omega), h 1 (by omega), h 2 (by omega),
      h 3 (by omega), h 4 (by omega)]
  · intro j hj ho hprev
    interval_cases j <;>
      simp [get_db_connection, connectLoop, ho, hprev, List.replicate]
  · intro j hj ho hprev
    interval_cases j <;>
      simp [get_db_connection, connectLoop, ho, hprev, List.replicate]

/-- C9 witness: an always-locked oracle exhausts all 5 attempts with
four 500 ms sleeps; an oracle failing non-locked at attempt 2 stops at
attempt 3; an immediately successful oracle connects on attempt 1. -/
theorem claim_C9_retry_policy_witness :
    get_db_connection (fun _ => ConnOutcome.lockedErr)
      = (.raisedLocked, 5, [500, 500, 500, 500])
    ∧ get_db_connection (fun i => if i = 2 then ConnOutcome.otherErr else ConnOutcome.lockedErr)
        = (.raisedOther, 3, [500, 500])
    ∧ get_db_connection (fun _ => ConnOutcome.ok) = (.conn, 1, []) :=
  ⟨(claim_C9_retry_policy (fun _ => ConnOutcome.lockedErr)).1 (by decide),
   by
     have h := (claim_C9_retry_policy
       (fun i => if i = 2 then ConnOutcome.otherErr else ConnOutcome.lockedErr)).2.1
       2 (by decide) (by decide) (by decide)
     simpa using h,
   by
     have h := (claim_C9_retry_policy (fun _ => ConnOutcome.ok)).2.2
       0 (by decide) (by decide) (by decide)
     simpa using h⟩

/-! ## The attachment loop: shared lemmas -/

/-- Entries with an empty original filename are invisible to the loop:
processing a list of uploads is the same as processing the sublist of
entries with a non-empty filename. -/
theorem processFiles_filter_empty (env : Env) (hwId : Nat) (files : List UploadFile)
    (atts : List Attachment) (n : Nat) (saved : List SavedFile) (fs : FS) :
    processFiles env hwId files atts n saved fs
      = processFiles env hwId (files.filter (fun f => decide (f.filename ≠ ""))) atts n saved fs := by
  induction files generalizing atts n saved fs with
  | nil => rfl
  | cons f rest ih =>
    by_cases hf : f.filename = ""
    · simpa [processFiles, hf] using ih atts n saved fs
    · by_cases hs : env.saveOk f = true
      · simpa [processFiles, hf, hs] using
          ih (atts ++ [⟨n, hwId, f.filename, storedNameFor env f⟩]) (n + 1)
            (saved ++ [⟨f.filename, storedNameFor env f⟩])
            (fs.write (uploadPath (storedNameFor env f)) f.content)
      · have hs' : env.saveOk f = false := by simpa using hs
        simp [processFiles, hf, hs']

/-- When the first non-skipped upload whose save fails is `f`, the loop
aborts there: it reports failure and the disk holds exactly the writes
of the non-skipped uploads processed before `f`. -/
theorem processFiles_fails (env : Env) (hwId : Nat)
    (files₁ : List UploadFile) (f : UploadFile) (files₂ : List UploadFile)
    (atts : List Attachment) (n : Nat) (saved : List SavedFile) (fs : FS)
    (hok : ∀ g ∈ files₁, g.filename ≠ "" → env.saveOk g = true)
    (hf : f.filename ≠ "") (hfail : env.saveOk f = false) :
    processFiles env hwId (files₁ ++ f :: files₂) atts n saved fs
      = (none, writeAll env fs (files₁.filter (fun g => decide (g.filename ≠ "")))) := by
  induction files₁ generalizing atts n saved fs with
  | nil => simp [processFiles, hf, hfail, writeAll]
  | cons g rest ih =>
    by_cases hg : g.filename = ""
    · simpa [processFiles, hg] using
        ih atts n saved fs (fun x hx => hok x (List.mem_cons_of_mem g hx))
    · have hs : env.saveOk g = true := hok g (List.mem_cons_self g rest) hg
      simpa [processFiles, hg, hs, writeAll] using
        ih _ _ _ _ (fun x hx => hok x (List.mem_cons_of_mem g hx))

/-- When every non-skipped save succeeds, the loop returns the staged
attachment rows (ids counted from `n`), the response entries, and the
disk extended with one write per non-skipped upload. -/
theorem processFiles_all_ok (env : Env) (hwId : Nat) (files : List UploadFile)
    (atts : List Attachment) (n : Nat) (saved : List SavedFile) (fs : FS)
    (hok : ∀ f ∈ files, f.filename ≠ "" → env.saveOk f = true) :
    processFiles env hwId files atts n saved fs
      = (some (atts ++ attRows env hwId n (files.filter (fun f => decide (f.filename ≠ ""))),
               n + (files.filter (fun f => decide (f.filename ≠ ""))).length,
               saved ++ savedRows env (files.filter (fun f => decide (f.filename ≠ "")))),
         writeAll env fs (files.filter (fun f => decide (f.filename ≠ "")))) := by
  induction files generalizing atts n saved fs with
  | nil => simp [processFiles, attRows, savedRows, writeAll]
  | cons f rest ih =>
    by_cases hf : f.filename = ""
    · simpa [processFiles, hf] using
        ih atts n saved fs (fun x hx => hok x (List.mem_cons_of_mem f hx))
    · have hs : env.saveOk f = true := hok f (List.mem_cons_self f rest) hf
      have hstep : processFiles env hwId (f :: rest) atts n saved fs
          = processFiles env hwId rest
              (atts ++ [⟨n, hwId, f.filename, storedNameFor env f⟩]) (n + 1)
              (saved ++ [⟨f.filename, storedNameFor env f⟩])
              (fs.write (uploadPath (storedNameFor env f)) f.content) := by
        simp [processFiles, hf, hs]
      rw [hstep, ih _ _ _ _ (fun x hx => hok x (List.mem_cons_of_mem f hx))]
      simp [hf, attRows, savedRows, writeAll, List.append_assoc]
      omega

/-- The staged rows are exactly one per upload: same order, each with the
parent id, the original filename and the generated stored name. -/
theorem attRows_map (env : Env) (hwId : Nat) (n : Nat) (files : List UploadFile) :
    (attRows env hwId n files).map (fun a => (a.homework_id, a.filename, a.filepath))
      = files.map (fun f => (hwId, f.filename, storedNameFor env f)) := by
  induction files generalizing n with
  | nil => rfl
  | cons f rest ih => simp [attRows, ih]

/-- Writing one file leaves every other path unchanged. -/
theorem FS.read_write_ne (fs : FS) (p q : String) (c : Bytes) (h : p ≠ q) :
    (fs.write q c).read p = fs.read p := by
  simp [FS.read, FS.write, List.find?_cons, Ne.symm h]

/-- A run of writes leaves every path other than the written ones
unchanged. -/
theorem writeAll_read_frame (env : Env) (fs : FS) (L : List UploadFile) (p : String)
    (h : ∀ f ∈ L, p ≠ uploadPath (storedNameFor env f)) :
    (writeAll env fs L).read p = fs.read p := by
  induction L generalizing fs with
  | nil => rfl
  | cons f rest ih =>
    have h1 : p ≠ uploadPath (storedNameFor env f) := h f (List.mem_cons_self f rest)
    simp only [writeAll, List.foldl_cons]
    rw [show (List.foldl (fun fs f => fs.write (uploadPath (storedNameFor env f)) f.content)
      (fs.write (uploadPath (storedNameFor env f)) f.content) rest)
      = writeAll env (fs.write (uploadPath (storedNameFor env f)) f.content) rest from rfl]
    rw [ih _ (fun x hx => h x (List.mem_cons_of_mem f hx))]
    exact FS.read_write_ne fs p _ f.content h1

/-! ## Claim C8: empty-filename uploads are skipped -/

/-- C8 — both create and update are unchanged when the upload entries
with an empty original filename are dropped up front: such an entry
yields no attachment row, no disk write, and no failure. -/
theorem claim_C8_skip_empty (env : Env) (id : Nat) (form : FormData)
    (files : List UploadFile) (st : ServerState) :
    add_homework env form files st
      = add_homework env form (files.filter (fun f => decide (f.filename ≠ ""))) st
    ∧ update_homework env id form files st
      = update_homework env id form (files.filter (fun f => decide (f.filename ≠ ""))) st := by
  constructor
  · simp only [add_homework]
    rw [processFiles_filter_empty]
  · simp only [update_homework]
    rw [processFiles_filter_empty]

/-! ## Claim C2: failure midway through create -/

/-- C2 counterexample — create with two files where saving the second
raises: the response is the 500 error, but the homework row does **not**
remain: the database is exactly as before the call (the transaction was
never committed, so `conn.close()` rolled the inserts back).  Only the
file written for the first attachment remains on disk. -/
theorem claim_C2_counterexample :
    (add_homework envFailFix formOkFix [fileA, fileB] stEmpty).1 = .serverError
    ∧ (add_homework envFailFix formOkFix [fileA, fileB] stEmpty).2.db = stEmpty.db
    ∧ (add_homework envFailFix formOkFix [fileA, fileB] stEmpty).2.fs.read
        (uploadPath (storedNameFor envFailFix fileA)) = some fileA.content := by
  decide

/-- C2 (amended) — if saving some attachment fails during create after
the homework row was inserted, the call answers the 500 error and the
open transaction is discarded: the homework row and the attachment rows
staged earlier in the call do **not** survive (the database is exactly
as before the call), while the files already written for the earlier
attachments remain on disk and are not cleaned up. -/
theorem claim_C2_rollback (env : Env) (form : FormData)
    (files₁ : List UploadFile) (f : UploadFile) (files₂ : List UploadFile)
    (st : ServerState)
    (hform : form.hasAll = true)
    (hok : ∀ g ∈ files₁, g.filename ≠ "" → env.saveOk g = true)
    (hf : f.filename ≠ "") (hfail : env.saveOk f = false) :
    add_homework env form (files₁ ++ f :: files₂) st
      = (.serverError,
         ⟨st.db, writeAll env st.fs (files₁.filter (fun g => decide (g.filename ≠ "")))⟩) := by
  have hp := processFiles_fails env st.db.nextHwId files₁ f files₂
    st.db.attachments st.db.nextAttId [] st.fs hok hf hfail
  simp [add_homework, hform, hp]

/-- C2 witness: concrete create in which the second file's save fails. -/
theorem claim_C2_rollback_witness :
    formOkFix.hasAll = true
    ∧ (∀ g ∈ [fileA], g.filename ≠ "" → envFailFix.saveOk g = true)
    ∧ fileB.filename ≠ ""
    ∧ envFailFix.saveOk fileB = false
    ∧ add_homework envFailFix formOkFix ([fileA] ++ fileB :: []) stEmpty
        = (.serverError,
           ⟨stEmpty.db,
            writeAll envFailFix stEmpty.fs ([fileA].filter (fun g => decide (g.filename ≠ "")))⟩) :=
  ⟨by decide, by decide, by decide, by decide,
   claim_C2_rollback envFailFix formOkFix [fileA] fileB [] stEmpty
     (by decide) (by decide) (by decide) (by decide)⟩

/-! ## Claim C5: update of an existing id -/

/-- C5 — update of an existing id answers 200 and: replaces exactly the
four mutable fields of the rows with that id, keeping `id` and
`createdAt`; keeps every other homework row as it was (same table
length); keeps every prior attachment row in place and appends exactly
one new row per non-skipped supplied file (parent id, original filename,
generated stored name); and leaves every disk path other than the newly
stored ones untouched, so the files of prior attachments are intact. -/
theorem claim_C5_update (env : Env) (id : Nat) (t s ti c : String) (form : FormData)
    (files : List UploadFile) (st : ServerState)
    (ht : form.time = some t) (hsu : form.subject = some s)
    (hti : form.title = some ti) (hc : form.content = some c)
    (hex : ∃ hw ∈ st.db.homeworks, hw.id = id)
    (hok : ∀ f ∈ files, f.filename ≠ "" → env.saveOk f = true) :
    (update_homework env id form files st).1
      = .updated id (savedRows env (files.filter (fun f => decide (f.filename ≠ ""))))
    ∧ (update_homework env id form files st).2.db.homeworks
        = st.db.homeworks.map (fun hw =>
            if hw.id = id then ⟨hw.id, t, s, ti, c, hw.createdAt⟩ else hw)
    ∧ (∀ hw ∈ st.db.homeworks, hw.id ≠ id →
        hw ∈ (update_homework env id form files st).2.db.homeworks)
    ∧ (∀ hw ∈ st.db.homeworks, hw.id = id →
        (⟨hw.id, t, s, ti, c, hw.createdAt⟩ : Homework)
          ∈ (update_homework env id form files st).2.db.homeworks)
    ∧ (update_homework env id form files st).2.db.homeworks.length
        = st.db.homeworks.length
    ∧ (update_homework env id form files st).2.db.attachments
        = st.db.attachments
          ++ attRows env id st.db.nextAttId (files.filter (fun f => decide (f.filename ≠ "")))
    ∧ (∀ a ∈ st.db.attachments, a ∈ (update_homework env id form files st).2.db.attachments)
    ∧ (attRows env id st.db.nextAttId (files.filter (fun f => decide (f.filename ≠ "")))).map
        (fun a => (a.homework_id, a.filename, a.filepath))
        = (files.filter (fun f => decide (f.filename ≠ ""))).map
            (fun f => (id, f.filename, storedNameFor env f))
    ∧ (∀ p, (∀ f ∈ files, f.filename ≠ "" → p ≠ uploadPath (storedNameFor env f)) →
        (update_homework env id form files st).2.fs.read p = st.fs.read p) := by
  have hform : form.hasAll = true := by
    simp [FormData.hasAll, ht, hsu, hti, hc]
  obtain ⟨hw0, hhw0, hid0⟩ := hex
  have hfindS : (st.db.homeworks.find? (fun h => decide (h.id = id))).isSome :=
    List.find?_isSome.mpr ⟨hw0, hhw0, by simp [hid0]⟩
  have hp := processFiles_all_ok env id files st.db.attachments st.db.nextAttId [] st.fs hok
  cases hfd : st.db.homeworks.find? (fun h => decide (h.id = id)) with
  | none => rw [hfd] at hfindS; simp at hfindS
  | some hw1 =>
    have hr : update_homework env id form files st
        = (.updated id (savedRows env (files.filter (fun f => decide (f.filename ≠ "")))),
           ⟨⟨st.db.homeworks.map (fun hw =>
                if hw.id = id then ⟨hw.id, t, s, ti, c, hw.createdAt⟩ else hw),
             st.db.attachments
               ++ attRows env id st.db.nextAttId (files.filter (fun f => decide (f.filename ≠ ""))),
             st.db.nextHwId,
             st.db.nextAttId + (files.filter (fun f => decide (f.filename ≠ ""))).length⟩,
            writeAll env st.fs (files.filter (fun f => decide (f.filename ≠ "")))⟩) := by
      simp only [update_homework, hform, if_true, hfd, hp]
      simp [ht, hsu, hti, hc]
    refine ⟨by rw [hr], by rw [hr], ?_, ?_, by rw [hr]; simp, by rw [hr], ?_, ?_, ?_⟩
    · intro hw hmem hne
      rw [hr]
      simpa [hne] using List.mem_map_of_mem
        (fun hw => if hw.id = id then (⟨hw.id, t, s, ti, c, hw.createdAt⟩ : Homework) else hw) hmem
    · intro hw hmem heq
      rw [hr]
      simpa [heq] using List.mem_map_of_mem
        (fun hw => if hw.id = id then (⟨hw.id, t, s, ti, c, hw.createdAt⟩ : Homework) else hw) hmem
    · intro a ha
      rw [hr]
      simp [ha]
    · exact attRows_map env id st.db.nextAttId _
    · intro p hp'
      rw [hr]
      exact writeAll_read_frame env st.fs _ p (by
        intro f hf
        exact hp' f (List.mem_filter.mp hf).1 (by
          have := (List.mem_filter.mp hf).2
          simpa using this))

/-- C5 witness: update homework 1 of the one-homework fixture with new
field values and one uploaded file. -/
theorem claim_C5_update_witness :
    (∃ hw ∈ stOneFix.db.homeworks, hw.id = 1)
    ∧ (∀ f ∈ [fileA], f.filename ≠ "" → envOkFix.saveOk f = true)
    ∧ ((update_homework envOkFix 1 formUpdFix [fileA] stOneFix).1
        = .updated 1 (savedRows envOkFix ([fileA].filter (fun f => decide (f.filename ≠ ""))))
      ∧ (update_homework envOkFix 1 formUpdFix [fileA] stOneFix).2.db.homeworks
          = stOneFix.db.homeworks.map (fun hw =>
              if hw.id = 1 then ⟨hw.id, "t2", "Sci", "T2", "C2", hw.createdAt⟩ else hw)
      ∧ (∀ hw ∈ stOneFix.db.homeworks, hw.id ≠ 1 →
          hw ∈ (update_homework envOkFix 1 formUpdFix [fileA] stOneFix).2.db.homeworks)
      ∧ (∀ hw ∈ stOneFix.db.homeworks, hw.id = 1 →
          (⟨hw.id, "t2", "Sci", "T2", "C2", hw.createdAt⟩ : Homework)
            ∈ (update_homework envOkFix 1 formUpdFix [fileA] stOneFix).2.db.homeworks)
      ∧ (update_homework envOkFix 1 formUpdFix [fileA] stOneFix).2.db.homeworks.length
          = stOneFix.db.homeworks.length
      ∧ (update_homework envOkFix 1 formUpdFix [fileA] stOneFix).2.db.attachments
          = stOneFix.db.attachments
            ++ attRows envOkFix 1 stOneFix.db.nextAttId
                ([fileA].filter (fun f => decide (f.filename ≠ "")))
      ∧ (∀ a ∈ stOneFix.db.attachments,
          a ∈ (update_homework envOkFix 1 formUpdFix [fileA] stOneFix).2.db.attachments)
      ∧ (attRows envOkFix 1 stOneFix.db.nextAttId
            ([fileA].filter (fun f => decide (f.filename ≠ "")))).map
            (fun a => (a.homework_id, a.filename, a.filepath))
          = ([fileA].filter (fun f => decide (f.filename ≠ ""))).map
              (fun f => (1, f.filename, storedNameFor envOkFix f))
      ∧ (∀ p, (∀ f ∈ [fileA], f.filename ≠ "" → p ≠ uploadPath (storedNameFor envOkFix f)) →
          (update_homework envOkFix 1 formUpdFix [fileA] stOneFix).2.fs.read p
            = stOneFix.fs.read p)) :=
  ⟨by decide, by decide,
   claim_C5_update envOkFix 1 "t2" "Sci" "T2" "C2" formUpdFix [fileA] stOneFix
     rfl rfl rfl rfl (by decide) (by decide)⟩

end HomeworkApp

namespace HomeworkApp

/-! ## Grouping and ordering lemmas for the listing -/

/-- Appending into a group changes only the group of that key. -/
theorem groupVal_insertGrouped (s s' : String) (h : HomeworkJson)
    (acc : List (String × List HomeworkJson)) :
    groupVal s (insertGrouped s' h acc)
      = if s' = s then groupVal s acc ++ [h] else groupVal s acc := by
  induction acc with
  | nil =>
    by_cases hss : s' = s <;> simp [insertGrouped, groupVal, hss]
  | cons kv rest ih =>
    obtain ⟨k, v⟩ := kv
    by_cases hks : k = s'
    · subst hks
      by_cases hkss : k = s <;> simp [insertGrouped, groupVal, hkss]
    · by_cases hkss : k = s
      · subst hkss
        have hss : s' ≠ k := fun hh => hks hh.symm
        simp [insertGrouped, groupVal, hks, hss]
      · simp [insertGrouped, groupVal, hks, hkss, ih]

/-- After folding the homework list into groups, the group of key `s`
holds exactly the serializations of the homeworks with subject `s`, in
traversal order. -/
theorem groupVal_foldl (atts : List Attachment) (s : String) (l : List Homework)
    (acc : List (String × List HomeworkJson)) :
    groupVal s (l.foldl (fun acc hw => insertGrouped hw.subject (hwJson atts hw) acc) acc)
      = groupVal s acc ++ (l.filter (fun hw => decide (hw.subject = s))).map (hwJson atts) := by
  induction l generalizing acc with
  | nil => simp
  | cons hw tl ih =>
    simp only [List.foldl_cons]
    rw [ih, groupVal_insertGrouped]
    by_cases hsub : hw.subject = s
    · simp [hsub, List.append_assoc]
    · simp [hsub]

/-- Inserting into the groups adds at most the key `s`. -/
theorem keysOf_insertGrouped_sub (s : String) (h : HomeworkJson)
    (acc : List (String × List HomeworkJson)) (x : String)
    (hx : x ∈ keysOf (insertGrouped s h acc)) : x ∈ keysOf acc ∨ x = s := by
  induction acc with
  | nil =>
    right
    simpa [insertGrouped, keysOf] using hx
  | cons kv rest ih =>
    obtain ⟨k, v⟩ := kv
    by_cases hks : k = s
    · left
      rw [show insertGrouped s h ((k, v) :: rest) = (k, v ++ [h]) :: rest from by
        simp [insertGrouped, hks]] at hx
      exact hx
    · rw [show insertGrouped s h ((k, v) :: rest) = (k, v) :: insertGrouped s h rest from by
        simp [insertGrouped, hks]] at hx
      rcases List.mem_cons.mp hx with hx | hx
      · left
        exact hx ▸ List.mem_cons_self k (keysOf rest)
      · rcases ih hx with h' | h'
        · exact Or.inl (List.mem_cons_of_mem k h')
        · exact Or.inr h'

/-- Inserting into the groups keeps the keys distinct. -/
theorem nodupKeys_insertGrouped (s : String) (h : HomeworkJson)
    (acc : List (String × List HomeworkJson)) :
    (keysOf acc).Nodup → (keysOf (insertGrouped s h acc)).Nodup := by
  induction acc with
  | nil =>
    intro _
    simp [insertGrouped, keysOf]
  | cons kv rest ih =>
    intro hn
    obtain ⟨k, v⟩ := kv
    have hn' := List.nodup_cons.mp hn
    by_cases hks : k = s
    · rw [show insertGrouped s h ((k, v) :: rest) = (k, v ++ [h]) :: rest from by
        simp [insertGrouped, hks]]
      exact List.nodup_cons.mpr hn'
    · rw [show insertGrouped s h ((k, v) :: rest) = (k, v) :: insertGrouped s h rest from by
        simp [insertGrouped, hks]]
      refine List.nodup_cons.mpr ⟨?_, ih hn'.2⟩
      intro hk
      rcases keysOf_insertGrouped_sub s h rest k hk with h' | h'
      · exact hn'.1 h'
      · exact hks h'

/-- The grouped listing never repeats a subject key. -/
theorem nodupKeys_group_foldl (atts : List Attachment) (l : List Homework)
    (acc : List (String × List HomeworkJson)) (hn : (keysOf acc).Nodup) :
    (keysOf (l.foldl (fun acc hw => insertGrouped hw.subject (hwJson atts hw) acc) acc)).Nodup := by
  induction l generalizing acc with
  | nil => exact hn
  | cons hw tl ih =>
    simp only [List.foldl_cons]
    exact ih _ (nodupKeys_insertGrouped _ _ _ hn)

/-- With distinct keys, membership of `(s, l)` determines the group of `s`. -/
theorem groupVal_of_mem (s : String) (l : List HomeworkJson)
    (acc : List (String × List HomeworkJson)) :
    (s, l) ∈ acc → (keysOf acc).Nodup → groupVal s acc = l := by
  induction acc with
  | nil =>
    intro hmem _
    simp at hmem
  | cons kv rest ih =>
    intro hmem hn
    obtain ⟨k, v⟩ := kv
    have hn' := List.nodup_cons.mp hn
    rcases List.mem_cons.mp hmem with heq | hmem'
    · obtain ⟨hk, hv⟩ := Prod.mk.injEq .. ▸ heq
      rw [show groupVal s ((k, v) :: rest) = if k = s then v else groupVal s rest from rfl,
        if_pos hk.symm, hv]
    · have hks : k ≠ s := by
        intro hk
        exact hn'.1 (hk ▸ (List.mem_map_of_mem Prod.fst hmem' : s ∈ keysOf rest))
      rw [show groupVal s ((k, v) :: rest) = if k = s then v else groupVal s rest from rfl,
        if_neg hks]
      exact ih hmem' hn'.2

/-- Inserting into the groups adds exactly the one entry. -/
theorem flatVals_insertGrouped (s : String) (h : HomeworkJson)
    (acc : List (String × List HomeworkJson)) :
    (flatVals (insertGrouped s h acc)).Perm (h :: flatVals acc) := by
  induction acc with
  | nil => simp [insertGrouped, flatVals]
  | cons kv rest ih =>
    obtain ⟨k, v⟩ := kv
    by_cases hks : k = s
    · rw [show insertGrouped s h ((k, v) :: rest) = (k, v ++ [h]) :: rest from by
        simp [insertGrouped, hks]]
      rw [show flatVals ((k, v ++ [h]) :: rest) = (v ++ [h]) ++ flatVals rest from by
        simp [flatVals]]
      rw [show flatVals ((k, v) :: rest) = v ++ flatVals rest from by simp [flatVals]]
      rw [List.append_assoc]
      exact List.perm_middle
    · rw [show insertGrouped s h ((k, v) :: rest) = (k, v) :: insertGrouped s h rest from by
        simp [insertGrouped, hks]]
      rw [show flatVals ((k, v) :: insertGrouped s h rest)
        = v ++ flatVals (insertGrouped s h rest) from by simp [flatVals]]
      rw [show flatVals ((k, v) :: rest) = v ++ flatVals rest from by simp [flatVals]]
      exact (List.Perm.append_left v ih).trans List.perm_middle

/-- Folding a homework list into the groups adds exactly those entries. -/
theorem flatVals_group_foldl (atts : List Attachment) (l : List Homework)
    (acc : List (String × List HomeworkJson)) :
    (flatVals (l.foldl (fun acc hw => insertGrouped hw.subject (hwJson atts hw) acc) acc)).Perm
      (flatVals acc ++ l.map (hwJson atts)) := by
  induction l generalizing acc with
  | nil => simp
  | cons hw tl ih =>
    simp only [List.foldl_cons, List.map_cons]
    exact (ih _).trans
      ((List.Perm.append_right _ (flatVals_insertGrouped _ _ _)).trans List.perm_middle.symm)

/-- The listing's entries are a permutation of the serialized table. -/
theorem get_homeworks_flat_perm (db : DB) :
    (flatVals (get_homeworks db)).Perm (db.homeworks.map (hwJson db.attachments)) := by
  have h1 := flatVals_group_foldl db.attachments (sortHw db.homeworks) []
  rw [show flatVals ([] : List (String × List HomeworkJson)) = [] from rfl,
    List.nil_append] at h1
  exact h1.trans (List.Perm.map _ (List.perm_insertionSort _ db.homeworks))

/-- Every group of the listing is the subject-filtered, sorted table. -/
theorem mem_get_homeworks (db : DB) (p : String × List HomeworkJson)
    (hp : p ∈ get_homeworks db) :
    p.2 = ((sortHw db.homeworks).filter (fun hw => decide (hw.subject = p.1))).map
      (hwJson db.attachments) := by
  obtain ⟨s, l⟩ := p
  have hn : (keysOf (get_homeworks db)).Nodup :=
    nodupKeys_group_foldl db.attachments (sortHw db.homeworks) [] (by simp [keysOf])
  have h1 : groupVal s (get_homeworks db) = l := groupVal_of_mem s l _ hp hn
  have h2 := groupVal_foldl db.attachments s (sortHw db.homeworks) []
  rw [show get_homeworks db
    = (sortHw db.homeworks).foldl
        (fun acc hw => insertGrouped hw.subject (hwJson db.attachments hw) acc) [] from rfl,
    h2] at h1
  simpa [groupVal] using h1.symm

/-- The `ORDER BY created_at DESC` view is sorted most-recent-first. -/
theorem sortHw_sorted (l : List Homework) :
    (sortHw l).Pairwise (fun a b => b.createdAt ≤ a.createdAt) :=
  List.sorted_insertionSort _ l

/-! ## Claim C6: the grouped listing -/

/-- C6 — the listing holds every stored homework exactly once (its
entries are a permutation of the table); each group holds exactly the
homeworks of its subject key, ordered by `createdAt` descending; and
each entry carries exactly the attachments whose `homework_id` is its
id, exposed as id / filename / filepath. -/
theorem claim_C6_listing (db : DB) :
    (flatVals (get_homeworks db)).Perm (db.homeworks.map (hwJson db.attachments))
    ∧ ∀ p ∈ get_homeworks db,
        p.2 = ((sortHw db.homeworks).filter (fun hw => decide (hw.subject = p.1))).map
            (hwJson db.attachments)
        ∧ (∀ hj ∈ p.2, hj.subject = p.1)
        ∧ p.2.Pairwise (fun a b => b.createdAt ≤ a.createdAt)
        ∧ (∀ hj ∈ p.2,
            hj.attachments = (db.attachments.filter
              (fun a => decide (a.homework_id = hj.id))).map
              (fun a => ⟨a.id, a.filename, a.filepath⟩)) := by
  refine ⟨get_homeworks_flat_perm db, ?_⟩
  intro p hp
  have hchar := mem_get_homeworks db p hp
  refine ⟨hchar, ?_, ?_, ?_⟩
  · intro hj hj_mem
    rw [hchar] at hj_mem
    obtain ⟨hw, hwmem, rfl⟩ := List.mem_map.mp hj_mem
    have := (List.mem_filter.mp hwmem).2
    simpa [hwJson] using this
  · rw [hchar]
    refine List.Pairwise.map _ ?_
      (List.Pairwise.sublist (List.filter_sublist _) (sortHw_sorted db.homeworks))
    intro a b hab
    simpa [hwJson] using hab
  · intro hj hj_mem
    rw [hchar] at hj_mem
    obtain ⟨hw, hwmem, rfl⟩ := List.mem_map.mp hj_mem
    rfl

/-! ## Removal lemmas for delete -/

/-- After removing `q`, no entry with path `q` can be found. -/
theorem find?_filter_ne_self (l : List (String × Bytes)) (q : String) :
    (l.filter (fun e => decide (e.1 ≠ q))).find? (fun e => decide (e.1 = q)) = none := by
  apply List.find?_eq_none.mpr
  intro x hx
  have hne := (List.mem_filter.mp hx).2
  simp at hne
  simp [hne]

/-- Removing `q` does not affect the first entry of a different path. -/
theorem find?_filter_ne_other (l : List (String × Bytes)) (p q : String) (hpq : p ≠ q) :
    (l.filter (fun e => decide (e.1 ≠ q))).find? (fun e => decide (e.1 = p))
      = l.find? (fun e => decide (e.1 = p)) := by
  induction l with
  | nil => rfl
  | cons e rest ih =>
    by_cases heq : e.1 = q
    · have hne : ¬ e.1 = p := by
        rw [heq]
        exact fun hh => hpq hh.symm
      rw [List.filter_cons_of_neg (by simpa using heq),
        List.find?_cons_of_neg rest (by simpa using hne), ih]
    · rw [List.filter_cons_of_pos (by simpa using heq)]
      by_cases hep : e.1 = p
      · rw [List.find?_cons_of_pos _ (by simpa using hep),
          List.find?_cons_of_pos rest (by simpa using hep)]
      · rw [List.find?_cons_of_neg _ (by simpa using hep),
          List.find?_cons_of_neg rest (by simpa using hep), ih]

/-- Reading after an unlink: the removed path is gone, others unchanged. -/
theorem FS.read_remove (fs : FS) (p q : String) :
    (fs.remove q).read p = if p = q then none else fs.read p := by
  by_cases hpq : p = q
  · subst hpq
    simp only [FS.remove, FS.read]
    rw [find?_filter_ne_self]
    simp
  · simp only [FS.remove, FS.read]
    rw [find?_filter_ne_other fs.files p q hpq, if_neg hpq]

/-- A path that does not exist reads as absent. -/
theorem FS.read_of_not_exists (fs : FS) (p : String) (h : fs.pathExists p = false) :
    fs.read p = none := by
  simp only [FS.pathExists] at h
  simp only [FS.read]
  rw [List.find?_eq_none.mpr]
  intro x hx
  exact List.any_eq_false.mp h x hx

/-- The unlink loop of delete never (re)creates a file. -/
theorem foldRemove_read_none (names : List String) (fs : FS) (evs : List Event) (p : String)
    (hp : fs.read p = none) :
    ((names.foldl (fun (acc : FS × List Event) n =>
        let path := uploadPath n
        if acc.1.pathExists path then (acc.1.remove path, acc.2 ++ [.unlink path]) else acc)
      (fs, evs)).1).read p = none := by
  induction names generalizing fs evs with
  | nil => exact hp
  | cons n rest ih =>
    simp only [List.foldl_cons]
    by_cases hex : fs.pathExists (uploadPath n)
    · simp only [hex, if_pos]
      refine ih _ _ ?_
      rw [FS.read_remove]
      by_cases hpn : p = uploadPath n <;> simp [hpn, hp]
    · simp only [hex]
      simpa using ih fs evs hp

/-- After the unlink loop, every listed stored name is gone from disk. -/
theorem foldRemove_read_mem_none (names : List String) (fs : FS) (evs : List Event) (n : String)
    (hn : n ∈ names) :
    ((names.foldl (fun (acc : FS × List Event) m =>
        let path := uploadPath m
        if acc.1.pathExists path then (acc.1.remove path, acc.2 ++ [.unlink path]) else acc)
      (fs, evs)).1).read (uploadPath n) = none := by
  induction names generalizing fs evs with
  | nil => simp at hn
  | cons m rest ih =>
    simp only [List.foldl_cons]
    rcases List.mem_cons.mp hn with rfl | hmem
    · by_cases hex : fs.pathExists (uploadPath n)
      · simp only [hex, if_pos]
        refine foldRemove_read_none rest _ _ _ ?_
        rw [FS.read_remove]
        simp
      · simp only [hex]
        have h0 : fs.read (uploadPath n) = none :=
          FS.read_of_not_exists fs _ (by simpa using hex)
        simpa using foldRemove_read_none rest fs evs _ h0
    · by_cases hex : fs.pathExists (uploadPath m)
      · simp only [hex, if_pos]
        exact ih _ _ hmem
      · simp only [hex]
        simpa using ih fs evs hmem

/-- The unlink loop only ever appends unlink events. -/
theorem foldRemove_events (names : List String) (fs : FS) (evs : List Event) :
    ∀ e ∈ (names.foldl (fun (acc : FS × List Event) m =>
        let path := uploadPath m
        if acc.1.pathExists path then (acc.1.remove path, acc.2 ++ [.unlink path]) else acc)
      (fs, evs)).2, e ∈ evs ∨ ∃ q, e = .unlink q := by
  induction names generalizing fs evs with
  | nil =>
    intro e he
    exact Or.inl he
  | cons m rest ih =>
    intro e he
    simp only [List.foldl_cons] at he
    by_cases hex : fs.pathExists (uploadPath m)
    · simp only [hex, if_pos] at he
      rcases ih _ _ e he with h | h
      · rcases List.mem_append.mp h with h | h
        · exact Or.inl h
        · right
          exact ⟨uploadPath m, by simpa using h⟩
      · exact Or.inr h
    · simp only [hex] at he
      refine ih fs evs e ?_
      simpa using he

/-! ## Claim C4: delete of an existing id -/

/-- C4 — deleting a present id answers 200; afterwards no homework row
with that id and no attachment row referencing it remain, while all
other rows survive; the stored file of each of its attachments is gone,
so downloading any former stored name answers 404; the listing no longer
contains any entry with that id; and in the operation's event trace the
two row deletions and the commit occupy positions 0, 1, 2 while every
file unlink comes strictly after the commit. -/
theorem claim_C4_delete (id : Nat) (st : ServerState)
    (hex : ∃ hw ∈ st.db.homeworks, hw.id = id) :
    (delete_homework id st).1 = .deleted
    ∧ (∀ hw ∈ (delete_homework id st).2.1.db.homeworks, hw.id ≠ id)
    ∧ (∀ hw ∈ st.db.homeworks, hw.id ≠ id → hw ∈ (delete_homework id st).2.1.db.homeworks)
    ∧ (∀ a ∈ (delete_homework id st).2.1.db.attachments, a.homework_id ≠ id)
    ∧ (∀ a ∈ st.db.attachments, a.homework_id ≠ id →
        a ∈ (delete_homework id st).2.1.db.attachments)
    ∧ (∀ a ∈ st.db.attachments, a.homework_id = id →
        uploaded_file a.filepath (delete_homework id st).2.1.fs = .respNotFound)
    ∧ (∀ p ∈ get_homeworks (delete_homework id st).2.1.db, ∀ hj ∈ p.2, hj.id ≠ id)
    ∧ ((delete_homework id st).2.2[0]? = some (.dbDeleteAttachments id)
        ∧ (delete_homework id st).2.2[1]? = some (.dbDeleteHomework id)
        ∧ (delete_homework id st).2.2[2]? = some .commitTx
        ∧ ∀ j q, (delete_homework id st).2.2[j]? = some (.unlink q) → 2 < j) := by
  have hhw : (delete_homework id st).2.1.db.homeworks
      = st.db.homeworks.filter (fun h => decide (h.id ≠ id)) := rfl
  have hatt : (delete_homework id st).2.1.db.attachments
      = st.db.attachments.filter (fun a => decide (a.homework_id ≠ id)) := rfl
  have hfs : (delete_homework id st).2.1.fs
      = (((st.db.attachments.filter (fun a => decide (a.homework_id = id))).map
            (fun a => a.filepath)).foldl
          (fun (acc : FS × List Event) m =>
            let path := uploadPath m
            if acc.1.pathExists path then (acc.1.remove path, acc.2 ++ [.unlink path]) else acc)
          (st.fs, [])).1 := rfl
  have htr : (delete_homework id st).2.2
      = [Event.dbDeleteAttachments id, Event.dbDeleteHomework id, Event.commitTx]
        ++ (((st.db.attachments.filter (fun a => decide (a.homework_id = id))).map
            (fun a => a.filepath)).foldl
          (fun (acc : FS × List Event) m =>
            let path := uploadPath m
            if acc.1.pathExists path then (acc.1.remove path, acc.2 ++ [.unlink path]) else acc)
          (st.fs, [])).2 := rfl
  refine ⟨rfl, ?_, ?_, ?_, ?_, ?_, ?_, ?_⟩
  · intro hw hm
    rw [hhw] at hm
    have := (List.mem_filter.mp hm).2
    simpa using this
  · intro hw hm hne
    rw [hhw]
    exact List.mem_filter.mpr ⟨hm, by simpa using hne⟩
  · intro a ha
    rw [hatt] at ha
    have := (List.mem_filter.mp ha).2
    simpa using this
  · intro a ha hne
    rw [hatt]
    exact List.mem_filter.mpr ⟨ha, by simpa using hne⟩
  · intro a ha haid
    have hmem : a.filepath ∈ (st.db.attachments.filter
        (fun a => decide (a.homework_id = id))).map (fun a => a.filepath) :=
      List.mem_map_of_mem _ (List.mem_filter.mpr ⟨ha, by simpa using haid⟩)
    have hread := foldRemove_read_mem_none _ st.fs [] a.filepath hmem
    rw [uploaded_file, hfs]
    rw [hread]
  · intro p hp hj hjmem
    have hchar := mem_get_homeworks (delete_homework id st).2.1.db p hp
    rw [hchar] at hjmem
    obtain ⟨hw, hwmem, rfl⟩ := List.mem_map.mp hjmem
    have h1 : hw ∈ sortHw (delete_homework id st).2.1.db.homeworks :=
      (List.mem_filter.mp hwmem).1
    have h2 : hw ∈ (delete_homework id st).2.1.db.homeworks :=
      (List.mem_insertionSort _).mp h1
    rw [hhw] at h2
    have := (List.mem_filter.mp h2).2
    simpa [hwJson] using this
  · refine ⟨by simp [htr], by simp [htr], by simp [htr], ?_⟩
    intro j q hj
    rw [htr] at hj
    rcases j with _ | _ | _ | j
    · simp at hj
    · simp at hj
    · simp at hj
    · omega

/-- C4 witness: delete homework 1, which exists in the fixture with one
attachment whose file is on disk. -/
theorem claim_C4_delete_witness :
    (∃ hw ∈ stOneFix.db.homeworks, hw.id = 1)
    ∧ ((delete_homework 1 stOneFix).1 = .deleted
      ∧ (∀ hw ∈ (delete_homework 1 stOneFix).2.1.db.homeworks, hw.id ≠ 1)
      ∧ (∀ hw ∈ stOneFix.db.homeworks, hw.id ≠ 1 →
          hw ∈ (delete_homework 1 stOneFix).2.1.db.homeworks)
      ∧ (∀ a ∈ (delete_homework 1 stOneFix).2.1.db.attachments, a.homework_id ≠ 1)
      ∧ (∀ a ∈ stOneFix.db.attachments, a.homework_id ≠ 1 →
          a ∈ (delete_homework 1 stOneFix).2.1.db.attachments)
      ∧ (∀ a ∈ stOneFix.db.attachments, a.homework_id = 1 →
          uploaded_file a.filepath (delete_homework 1 stOneFix).2.1.fs = .respNotFound)
      ∧ (∀ p ∈ get_homeworks (delete_homework 1 stOneFix).2.1.db, ∀ hj ∈ p.2, hj.id ≠ 1)
      ∧ ((delete_homework 1 stOneFix).2.2[0]? = some (.dbDeleteAttachments 1)
          ∧ (delete_homework 1 stOneFix).2.2[1]? = some (.dbDeleteHomework 1)
          ∧ (delete_homework 1 stOneFix).2.2[2]? = some .commitTx
          ∧ ∀ j q, (delete_homework 1 stOneFix).2.2[j]? = some (.unlink q) → 2 < j)) :=
  ⟨by decide, claim_C4_delete 1 stOneFix (by decide)⟩

end HomeworkApp
